import Mathlib

/-!
Verification development for the reclame-aqui-scraper repository
(src/scraper.py, src/api.py, src/models.py).

Strings are modelled as `List Char`.  The Python `re` patterns used by the
scraper are embedded as abstract syntax trees (`RE`) and executed by a
backtracking matcher (`mrun`) that mirrors Python's leftmost search with
greedy / lazy repetition.  The matcher is structurally recursive on an
explicit gas parameter so that all definitions evaluate inside the kernel;
the gas bound `(length + 2) * 300` strictly dominates the depth of any
continuation chain for the (small, non-nullable-starred) patterns of this
repository, so gas exhaustion is unreachable.

Character classes follow Python's ASCII behaviour: `\s` is
space, tab, newline, carriage return, vertical tab and form feed; `\d` is
the ASCII digits; `[a-zA-Z0-9]` is ASCII alphanumeric.  The external
Firecrawl fetches are modelled as oracles of type `List Char → Except Unit
(List Char)` (`Except.error` models a raised fetch exception, `Except.ok`
the returned markdown, possibly empty).
-/

abbrev LC := List Char

/-- Python `\s` on the ASCII range (also the character set of `str.strip`). -/
def isPySpace (c : Char) : Bool :=
  c == ' ' || c == '\t' || c == '\n' || c == '\r' || c == '\x0b' || c == '\x0c'

/-- Python `str.strip()`: drop leading and trailing whitespace. -/
def stripChars (l : LC) : LC :=
  ((l.dropWhile isPySpace).reverse.dropWhile isPySpace).reverse

/-- Python `int` applied to a string of decimal digits. -/
def digitsToNat (l : LC) : Nat :=
  l.foldl (fun n c => n * 10 + (c.toNat - 48)) 0

/-- Split a text into its lines (separator `'\n'`), as Python line starts
seen by a `re.MULTILINE` `^` anchor. -/
def splitLines : LC → List LC
  | [] => [[]]
  | c :: rest =>
    match splitLines rest with
    | [] => [[]]
    | l :: ls => if c = '\n' then [] :: l :: ls else (c :: l) :: ls

/-- Regex abstract syntax: literals, single-character classes, sequencing,
alternation (left preferred), repetition and option (the `Bool` is `true`
for greedy), and numbered capture groups. -/
inductive RE where
  | lit : LC → RE
  | cls : (Char → Bool) → RE
  | seq : RE → RE → RE
  | alt : RE → RE → RE
  | star : Bool → RE → RE
  | opt : Bool → RE → RE
  | grp : Nat → RE → RE

abbrev Caps := List (Nat × LC)

/-- Record a capture; the most recent capture of a group is found first. -/
def setCap (i : Nat) (v : LC) (cs : Caps) : Caps := (i, v) :: cs

/-- Value of capture group `i`. -/
def getCap (i : Nat) (cs : Caps) : Option LC :=
  (cs.find? (fun p => p.1 = i)).map (fun p => p.2)

/-- Strip a literal prefix, or fail. -/
def dropPref : LC → LC → Option LC
  | [], s => some s
  | _ :: _, [] => none
  | c :: l, d :: s => if c = d then dropPref l s else none

/-- Backtracking matcher in continuation-passing style, mirroring Python
`re` semantics: alternation prefers the left branch, greedy repetition
tries the longer match first, lazy repetition the shorter; repetition
stops on an empty iteration.  Structurally recursive on the gas. -/
def mrun {σ : Type} : Nat → RE → LC → Caps → (LC → Caps → Option σ) → Option σ
  | 0, _, _, _, _ => none
  | g + 1, re, s, caps, k =>
    match re with
    | .lit l =>
      match dropPref l s with
      | some s' => k s' caps
      | none => none
    | .cls p =>
      match s with
      | [] => none
      | c :: s' => if p c then k s' caps else none
    | .seq a b => mrun g a s caps (fun s' c' => mrun g b s' c' k)
    | .alt a b => (mrun g a s caps k).orElse (fun _ => mrun g b s caps k)
    | .opt gr r =>
      if gr then (mrun g r s caps k).orElse (fun _ => k s caps)
      else (k s caps).orElse (fun _ => mrun g r s caps k)
    | .star gr r =>
      let once := mrun g r s caps
        (fun s' c' => if s'.length < s.length then mrun g (.star gr r) s' c' k else none)
      if gr then once.orElse (fun _ => k s caps)
      else (k s caps).orElse (fun _ => once)
    | .grp i r =>
      mrun g r s caps (fun s' c' => k s' (setCap i (s.take (s.length - s'.length)) c'))

/-- Gas that dominates every continuation chain of the patterns below. -/
def gasFor (s : LC) : Nat := (s.length + 2) * 300

/-- Try to match `re` at the start of `s`; on success return the captures
and the remaining text after the match. -/
def reMatchAt (re : RE) (s : LC) : Option (Caps × LC) :=
  mrun (gasFor s) re s [] (fun rest caps => some (caps, rest))

/-- Python `re.search`: try every start position from the left. -/
def reSearchAux (re : RE) : LC → Option (Caps × LC)
  | [] => reMatchAt re []
  | c :: rest =>
    match reMatchAt re (c :: rest) with
    | some r => some r
    | none => reSearchAux re rest

def reSearch (re : RE) (s : LC) : Option Caps :=
  (reSearchAux re s).map (fun p => p.1)

/-- Python `re.findall`: leftmost non-overlapping matches; an empty match
advances one character. -/
def reFindAllAux (re : RE) : Nat → LC → List Caps
  | 0, _ => []
  | _ + 1, [] =>
    match reMatchAt re [] with
    | some (caps, _) => [caps]
    | none => []
  | f + 1, c :: rest =>
    match reMatchAt re (c :: rest) with
    | none => reFindAllAux re f rest
    | some (caps, r) =>
      caps :: (if r.length ≤ rest.length then reFindAllAux re f r else reFindAllAux re f rest)

def reFindAll (re : RE) (s : LC) : List Caps :=
  reFindAllAux re (s.length + 1) s

/-- Python `re.sub(pattern, "", s)`: delete every leftmost
non-overlapping match. -/
def reSubEmptyAux (re : RE) : Nat → LC → LC
  | 0, s => s
  | _ + 1, [] => []
  | f + 1, c :: rest =>
    match reMatchAt re (c :: rest) with
    | some (_, r) => if r.length ≤ rest.length then reSubEmptyAux re f r else c :: reSubEmptyAux re f rest
    | none => c :: reSubEmptyAux re f rest

def reSubEmpty (re : RE) (s : LC) : LC :=
  reSubEmptyAux re (s.length + 1) s

/-- Sequence a list of regexes. -/
def rcat (l : List RE) : RE := l.foldr RE.seq (RE.lit [])

def rlit (s : String) : RE := RE.lit s.data

/-- Greedy `+` of a subexpression. -/
def rplus (r : RE) : RE := RE.seq r (RE.star true r)

/-- `\s*` -/
def sstar : RE := RE.star true (RE.cls isPySpace)

/-- `\s+` -/
def splus : RE := rplus (RE.cls isPySpace)

/-- `\n+` -/
def nplus : RE := rplus (RE.cls (fun c => c == '\n'))

/-- `\d` -/
def rdig : RE := RE.cls Char.isDigit

/-- `[^\n]` -/
def nonNl : RE := RE.cls (fun c => c != '\n')

/-! ### The patterns of src/scraper.py -/

/-- URL namespace scoped to a company slug, as interpolated into the link
pattern of `get_complaint_urls_from_markdown` (slugs are taken literally,
as are the escaped dots of the pattern). -/
def linkUrlStem (slug : LC) : LC := "https://www.reclameaqui.com.br/".data ++ slug ++ "/".data

/-- Pattern of a complaint link in list-page markdown. -/
def pLink (slug : LC) : RE :=
  rcat [rlit "[", RE.grp 1 (rplus (RE.cls (fun c => c != ']'))), rlit "](",
    RE.grp 2 (RE.seq (RE.lit (linkUrlStem slug)) (rplus (RE.cls (fun c => c != ')')))),
    rlit ")"]

/-- Pattern of the labelled ID field in detail markdown. -/
def pId : RE := rcat [rlit "**ID:**", sstar, RE.grp 1 (rplus rdig)]

/-- First status pattern (text after a status image marker). -/
def pStatus1 : RE :=
  rcat [rlit "![Reclamação", RE.star true (RE.cls (fun c => c != ']')), rlit "](",
    rplus (RE.cls (fun c => c != ')')), rlit ")", sstar, nplus,
    RE.grp 1 (rplus (RE.cls (fun c => c != '\n' && c != '[')))]

/-- Second status pattern (text below the literal status label). -/
def pStatus2 : RE :=
  rcat [rlit "Status da reclamação:", sstar, nplus, RE.star true nonNl, nplus,
    RE.grp 1 (rplus nonNl)]

/-- Combined location and date pattern. -/
def pLocDate : RE :=
  rcat [rlit "[Reclamar dessa empresa]", RE.star true nonNl, nplus,
    RE.grp 1 (rplus nonNl), nplus,
    RE.grp 2 (rcat [rdig, rdig, rlit "/", rdig, rdig, rlit "/", rdig, rdig, rdig, rdig,
      RE.star true nonNl])]

/-- Bare date pattern. -/
def pDateOnly : RE :=
  RE.grp 1 (rcat [rdig, rdig, rlit "/", rdig, rdig, rlit "/", rdig, rdig, rdig, rdig,
    splus, rlit "às", splus, rdig, rdig, rlit ":", rdig, rdig])

/-- Description block pattern (between the ID field, optionally followed by
a status line pair, and one of three trailing section markers; the body is
a lazy sequence of lines). -/
def pDesc : RE :=
  rcat [rlit "**ID:**", sstar, rplus rdig, sstar, nplus,
    RE.opt true (rcat [rlit "Status da reclamação:", RE.star true nonNl, nplus,
      RE.star true nonNl, nplus]),
    RE.grp 1 (RE.seq (rplus nonNl) (RE.star false (RE.seq nplus (rplus nonNl)))),
    RE.alt (RE.seq nplus (rlit "Deixe sua rea"))
      (RE.alt (RE.seq nplus (rlit "Compartilhe")) (RE.seq nplus (rlit "[RA Ads]")))]

/-- Markdown image pattern, deleted from descriptions. -/
def pImg : RE :=
  rcat [rlit "![", RE.star true (RE.cls (fun c => c != ']')), rlit "](",
    rplus (RE.cls (fun c => c != ')')), rlit ")"]

/-- Company link pattern of the search page. -/
def pSearchCo : RE :=
  rcat [rlit "[", RE.grp 1 (rplus (RE.cls (fun c => c != ']'))), rlit "](",
    RE.grp 2 (rcat [rlit "https://www.reclameaqui.com.br/empresa/",
      RE.grp 3 (rplus (RE.cls (fun c => c != '/' && c != ')'))),
      RE.opt true (rlit "/")]),
    rlit ")"]

/-- Page-count marker pattern of `get_total_pages`. -/
def pPages : RE :=
  rcat [RE.grp 1 (rplus rdig), splus, rlit "de", splus, RE.grp 2 (rplus rdig)]

/-! ### The data model of src/models.py

`scraped_at` (a `datetime.now()` default) is wall-clock time and is left
out of the embedding. -/

structure ChatMessage where
  owner : LC
  date : LC
  message : LC
deriving DecidableEq

structure FinalConsideration where
  message : Option LC
  service_note : Option LC
  would_do_business_again : Option LC
  date : Option LC
deriving DecidableEq

structure Complaint where
  id : LC
  title : LC
  description : LC
  status : LC
  date : LC
  location : Option LC
  tags : List LC
  chat : List ChatMessage
  final_consideration : Option FinalConsideration
  url : LC
deriving DecidableEq

structure CompanyInfo where
  name : LC
  slug : LC
  total_complaints : Option Nat
deriving DecidableEq

structure ComplaintsResponse where
  company : CompanyInfo
  complaints : List Complaint
  total_returned : Nat
deriving DecidableEq

/-! ### src/scraper.py -/

/-- The `(title, url)` pairs found by `re.findall` on list-page markdown. -/
def linkMatches (md slug : LC) : List (LC × LC) :=
  (reFindAll (pLink slug) md).filterMap (fun caps =>
    match getCap 1 caps, getCap 2 caps with
    | some t, some u => some (t, u)
    | _, _ => none)

/-- The accumulation loop of `get_complaint_urls_from_markdown`: keep URLs
containing an underscore, skip URLs already collected, stop as soon as
`limit` URLs are held. -/
def collectUrls (limit : Nat) : List (LC × LC) → List LC → List LC
  | [], urls => urls
  | (_, u) :: ms, urls =>
    if '_' ∈ u ∧ u ∉ urls then
      let urls' := urls ++ [u]
      if limit ≤ urls'.length then urls' else collectUrls limit ms urls'
    else collectUrls limit ms urls

def get_complaint_urls_from_markdown (md slug : LC) (limit : Nat) : List LC :=
  collectUrls limit (linkMatches md slug) []

/-- `get_total_pages`, with the fetch outcome as an oracle: an exception or
an unmatched page marker falls back to 1, a match is capped at 50. -/
def get_total_pages (fetchRes : Except Unit LC) : Nat :=
  match fetchRes with
  | .error _ => 1
  | .ok md =>
    match reSearch pPages md with
    | some caps => min (digitsToNat ((getCap 2 caps).getD [])) 50
    | none => 1

/-- The list-page URL fetched for a page number. -/
def listPageUrl (slug filt : LC) (page : Nat) : LC :=
  "https://www.reclameaqui.com.br/empresa/".data ++ slug ++
    "/lista-reclamacoes/?pagina=".data ++ (Nat.repr page).data ++ filt

/-- The pagination loop of `get_complaint_urls`.  The second result lists
the page numbers actually fetched, for accounting.  The fuel starts at 10
and never runs out: the loop itself stops once the page counter would pass
10. -/
def gcuLoop (fetch : LC → Except Unit LC) (slug : LC) (limit : Nat) (filt : LC) :
    Nat → Nat → List LC → List Nat → List LC × List Nat
  | 0, _, urls, pages => (urls, pages)
  | f + 1, page, urls, pages =>
    if urls.length < limit then
      match fetch (listPageUrl slug filt page) with
      | .error _ => (urls, pages ++ [page])
      | .ok md =>
        let pageUrls := get_complaint_urls_from_markdown md slug (limit - urls.length)
        if pageUrls = [] then (urls, pages ++ [page])
        else
          let urls' := urls ++ pageUrls
          if 10 < page + 1 then (urls', pages ++ [page])
          else gcuLoop fetch slug limit filt f (page + 1) urls' (pages ++ [page])
    else (urls, pages)

def get_complaint_urls_paged (fetch : LC → Except Unit LC) (slug : LC) (limit : Nat)
    (filt : LC) : List LC × List Nat :=
  let r := gcuLoop fetch slug limit filt 10 1 [] []
  (r.1.take limit, r.2)

def get_complaint_urls (fetch : LC → Except Unit LC) (slug : LC) (limit : Nat)
    (filt : LC) : List LC :=
  (get_complaint_urls_paged fetch slug limit filt).1

/-- Continuation of the multiline title pattern after a line-start hash
(`\s+(.+)$` applied to the text after the hash).  The whitespace class
crosses newlines, so the capture may live on a later line: when a
non-whitespace character follows the maximal whitespace run, the greedy
run wins and the capture is the rest of that character's line; when the
whole tail is whitespace, backtracking hands the capture exactly the last
non-newline character sitting at index at least one. -/
def titleMatchFrom (t : LC) : Option LC :=
  let w := t.takeWhile isPySpace
  if w.length = 0 then none
  else if w.length < t.length then
    some ((t.drop w.length).takeWhile (fun c => c ≠ '\n'))
  else
    match ((t.drop 1).reverse.dropWhile (fun c => c = '\n')).head? with
    | some c => some [c]
    | none => none

/-- The multiline title search: positions at the start of the text or
right after a newline that hold a hash are tried from the left. -/
def titleScan : Bool → LC → Option LC
  | _, [] => none
  | atStart, c :: rest =>
    if atStart = true ∧ c = '#' then
      match titleMatchFrom rest with
      | some g => some g
      | none => titleScan (c == '\n') rest
    else titleScan (c == '\n') rest

/-- Raw capture of the leftmost heading match of the markdown. -/
def extractTitleRaw (md : LC) : Option LC := titleScan true md

/-- The `title` variable of `scrape_complaint`. -/
def extract_title (md : LC) : LC :=
  match extractTitleRaw md with
  | some g => stripChars g
  | none => "Sem título".data

/-- Match of the URL id pattern at one start position: an underscore, a
nonempty greedy ASCII-alphanumeric run, an optional slash, and the end of
the string (which, for a Python dollar anchor, may also sit before one
final newline). -/
def urlIdMatchAt : LC → Option LC
  | [] => none
  | c :: rest =>
    if c = '_' then
      let run := rest.takeWhile Char.isAlphanum
      if run.length = 0 then none
      else
        let tail := rest.drop run.length
        if tail = [] ∨ tail = ['\n'] ∨ tail = ['/'] ∨ tail = ['/', '\n'] then some run
        else none
    else none

/-- Leftmost search of the URL id pattern. -/
def searchUrlId : LC → Option LC
  | [] => none
  | c :: rest =>
    match urlIdMatchAt (c :: rest) with
    | some r => some r
    | none => searchUrlId rest

/-- The `complaint_id` extraction of `scrape_complaint`: digits of the
labelled ID field, else the trailing id segment of the URL, else empty. -/
def extract_complaint_id (md url : LC) : LC :=
  let fromMd := match reSearch pId md with
    | some caps => (getCap 1 caps).getD []
    | none => []
  if fromMd = [] then
    match searchUrlId url with
    | some r => r
    | none => []
  else fromMd

def statusPatterns : List RE := [pStatus1, pStatus2]

/-- The status loop of `scrape_complaint`: for each pattern in order, take
the leftmost match, strip it, and accept it when nonempty and shorter than
50 characters; otherwise continue, defaulting to the unknown marker. -/
def statusLoop (md : LC) : List RE → LC
  | [] => "Desconhecido".data
  | p :: ps =>
    match reSearch p md with
    | some caps =>
      let potential := stripChars ((getCap 1 caps).getD [])
      if potential ≠ [] ∧ potential.length < 50 then potential else statusLoop md ps
    | none => statusLoop md ps

def extract_status (md : LC) : LC := statusLoop md statusPatterns

/-- The location and date extraction of `scrape_complaint`. -/
def extract_loc_date (md : LC) : Option LC × LC :=
  match reSearch pLocDate md with
  | some caps => (some (stripChars ((getCap 1 caps).getD [])), stripChars ((getCap 2 caps).getD []))
  | none =>
    match reSearch pDateOnly md with
    | some caps => (none, (getCap 1 caps).getD [])
    | none => (none, [])

/-- Replace every newline run by a single space (`re.sub` of a newline
run). -/
def collapseNl : LC → LC
  | [] => []
  | c :: rest =>
    if c = '\n' then
      if rest.head? = some '\n' then collapseNl rest else ' ' :: collapseNl rest
    else c :: collapseNl rest

/-- The description extraction of `scrape_complaint`: capture, strip,
delete embedded images, collapse newline runs, strip again. -/
def extract_description (md : LC) : LC :=
  match reSearch pDesc md with
  | some caps => stripChars (collapseNl (reSubEmpty pImg (stripChars ((getCap 1 caps).getD []))))
  | none => []

/-- `scrape_complaint` on the markdown returned for a URL: empty markdown
yields nothing; a missing or placeholder title aborts the record; every
other extraction degrades to a default.  Tags, chat and final
consideration are the literal constants of the source. -/
def scrape_complaint (md url : LC) : Option Complaint :=
  if md = [] then none
  else
    let title := extract_title md
    let cid := extract_complaint_id md url
    let status := extract_status md
    let locDate := extract_loc_date md
    let description := extract_description md
    if title = [] ∨ title = "Sem título".data then none
    else some
      { id := cid, title := title, description := description, status := status,
        date := locDate.2, location := locDate.1, tags := [], chat := [],
        final_consideration := none, url := url }

/-- `scrape_complaint` behind its fetch: a raised fetch error is caught and
yields nothing. -/
def scrape_complaint_via (fetch : LC → Except Unit LC) (url : LC) : Option Complaint :=
  match fetch url with
  | .error _ => none
  | .ok md => scrape_complaint md url

/-- Python `str.replace` of dashes by spaces. -/
def replaceDashes (l : LC) : LC := l.map (fun c => if c = '-' then ' ' else c)

def titleizeAux : Bool → LC → LC
  | _, [] => []
  | prevAlpha, c :: rest =>
    (if c.isAlpha then (if prevAlpha then c.toLower else c.toUpper) else c) ::
      titleizeAux c.isAlpha rest

/-- Python `str.title()` on the ASCII range. -/
def pyTitle (l : LC) : LC := titleizeAux false l

/-- `get_complaints`: collect URLs, scrape each (skipping failures), probe
the page count, and assemble the response. -/
def get_complaints (listFetch detailFetch : LC → Except Unit LC) (totalFetch : Except Unit LC)
    (company_slug : LC) (limit : Nat) (status_filter : LC) : ComplaintsResponse :=
  let urls := get_complaint_urls listFetch company_slug limit status_filter
  let complaints := urls.filterMap (scrape_complaint_via detailFetch)
  let total_pages := get_total_pages totalFetch
  { company := { name := pyTitle (replaceDashes company_slug), slug := company_slug,
                 total_complaints := some (total_pages * 10) },
    complaints := complaints,
    total_returned := complaints.length }

/-- The `(name, url, slug)` triples found on the search page. -/
def searchMatches (md : LC) : List (LC × LC × LC) :=
  (reFindAll pSearchCo md).filterMap (fun caps =>
    match getCap 1 caps, getCap 2 caps, getCap 3 caps with
    | some n, some u, some s => some (n, u, s)
    | _, _, _ => none)

/-- One Python dict assignment under the longest-name policy: an absent
slug is appended at the end, a present slug keeps its position and takes
the new name only when strictly longer. -/
def dictUpdate : List (LC × LC) → LC → LC → List (LC × LC)
  | [], s, v => [(s, v)]
  | (k, w) :: rest, s, v =>
    if k = s then (k, if w.length < v.length then v else w) :: rest
    else (k, w) :: dictUpdate rest s v

/-- The accumulation loop of `search_company`: skip invalid slugs and
invalid cleaned names, feed the rest to the dict. -/
def searchFold : List (LC × LC × LC) → List (LC × LC) → List (LC × LC)
  | [], d => d
  | (name, _, slug) :: ms, d =>
    if ("lista-reclamacoes".data <:+: slug) ∨ slug.length ≤ 1 ∨ ("ra-".data <+: slug) then
      searchFold ms d
    else
      let clean := stripChars name
      if clean = [] ∨ clean.length ≤ 2 ∨ ("**".data <:+: clean) ∨ '\\' ∈ clean ∨ '%' ∈ clean then
        searchFold ms d
      else searchFold ms (dictUpdate d slug clean)

/-- `search_company` applied to fetched markdown: empty markdown yields no
companies, otherwise the dict is converted in order and truncated to 10. -/
def search_company_from_markdown (md : LC) : List CompanyInfo :=
  if md = [] then []
  else ((searchFold (searchMatches md) []).map (fun p => CompanyInfo.mk p.2 p.1 none)).take 10

/-- `search_company` behind its fetch; an exception yields no companies. -/
def search_company (fetchRes : Except Unit LC) : List CompanyInfo :=
  match fetchRes with
  | .error _ => []
  | .ok md => search_company_from_markdown md

/-! ### src/api.py

HTTP outcomes are modelled by `ApiResult`; the detail strings of the
`HTTPException`s are elided. -/

inductive ApiResult (α : Type) where
  | ok : α → ApiResult α
  | httpError : Nat → ApiResult α
deriving DecidableEq

/-- `verify_api_key`: an unconfigured (unset or empty) server key admits
everything; otherwise a missing key is a 401, a mismatched key a 403, and
the matching key is returned. -/
def verify_api_key (serverKey apiKey : Option LC) : ApiResult LC :=
  match serverKey with
  | none => ApiResult.ok "dev-mode".data
  | some sk =>
    if sk = [] then ApiResult.ok "dev-mode".data
    else
      match apiKey with
      | none => ApiResult.httpError 401
      | some hk =>
        if hk = [] then ApiResult.httpError 401
        else if hk = sk then ApiResult.ok hk
        else ApiResult.httpError 403

/-- `APIKeyHeader(auto_error=False)` hands the dependency `None` both for
an absent header and for a header with an empty value. -/
def headerToParam (headerValue : Option LC) : Option LC :=
  match headerValue with
  | none => none
  | some v => if v = [] then none else some v

/-- The status query fragment assembled by the complaints handler
(`&status=` followed by the upper-cased status). -/
def statusFilterOf (status : Option LC) : LC :=
  match status with
  | some st => "&status=".data ++ st.map Char.toUpper
  | none => []

/-- The `/api/complaints/{slug}` handler: key check, then extraction, then
404 on an empty complaint list. -/
def get_company_complaints (serverKey headerValue : Option LC)
    (listFetch detailFetch : LC → Except Unit LC) (totalFetch : Except Unit LC)
    (company_slug : LC) (limit : Nat) (status : Option LC) : ApiResult ComplaintsResponse :=
  match verify_api_key serverKey (headerToParam headerValue) with
  | .httpError c => ApiResult.httpError c
  | .ok _ =>
    let result := get_complaints listFetch detailFetch totalFetch company_slug limit
      (statusFilterOf status)
    if result.complaints = [] then ApiResult.httpError 404 else ApiResult.ok result

/-- The `/api/search` handler: key check, then search, then 404 on an
empty company list. -/
def search_companies (serverKey headerValue : Option LC) (fetchRes : Except Unit LC) :
    ApiResult (List CompanyInfo) :=
  match verify_api_key serverKey (headerToParam headerValue) with
  | .httpError c => ApiResult.httpError c
  | .ok _ =>
    let companies := search_company fetchRes
    if companies = [] then ApiResult.httpError 404 else ApiResult.ok companies

/-! ### First-seen deduplication (specification side) -/

/-- First-seen deduplication, fuelled so that it evaluates structurally. -/
def firstDedupF {α : Type} [DecidableEq α] : Nat → List α → List α
  | 0, _ => []
  | _ + 1, [] => []
  | f + 1, a :: l => a :: firstDedupF f (l.filter (fun b => b ≠ a))

/-- Keep the first occurrence of every element, in order. -/
def firstDedup {α : Type} [DecidableEq α] (l : List α) : List α := firstDedupF l.length l

theorem firstDedupF_stable {α : Type} [DecidableEq α] :
    ∀ (f g : Nat) (l : List α), l.length ≤ f → l.length ≤ g →
      firstDedupF f l = firstDedupF g l := by
  intro f
  induction f with
  | zero =>
    intro g l hf _
    have : l = [] := List.eq_nil_of_length_eq_zero (Nat.le_zero.mp hf)
    subst this
    cases g <;> rfl
  | succ f ih =>
    intro g l hf hg
    cases l with
    | nil => cases g <;> rfl
    | cons a l' =>
      cases g with
      | zero => exact absurd hg (by simp)
      | succ g' =>
        simp only [firstDedupF]
        have hlen : (l'.filter (fun b => b ≠ a)).length ≤ l'.length :=
          List.length_filter_le _ _
        have hf' : (l'.filter (fun b => b ≠ a)).length ≤ f :=
          le_trans hlen (Nat.le_of_succ_le_succ hf)
        have hg' : (l'.filter (fun b => b ≠ a)).length ≤ g' :=
          le_trans hlen (Nat.le_of_succ_le_succ hg)
        rw [ih g' _ hf' hg']

theorem firstDedup_cons {α : Type} [DecidableEq α] (a : α) (l : List α) :
    firstDedup (a :: l) = a :: firstDedup (l.filter (fun b => b ≠ a)) := by
  show firstDedupF (l.length + 1) (a :: l) = _
  simp only [firstDedupF, firstDedup]
  rw [firstDedupF_stable l.length (l.filter (fun b => b ≠ a)).length _
    (List.length_filter_le _ _) (le_refl _)]

theorem mem_of_mem_firstDedupF {α : Type} [DecidableEq α] :
    ∀ (f : Nat) (l : List α) (x : α), x ∈ firstDedupF f l → x ∈ l := by
  intro f
  induction f with
  | zero => intro l x h; simp [firstDedupF] at h
  | succ f ih =>
    intro l x h
    cases l with
    | nil => simp [firstDedupF] at h
    | cons a l' =>
      simp only [firstDedupF, List.mem_cons] at h
      rcases h with h | h
      · simp [h]
      · have := ih _ _ h
        simp only [List.mem_filter] at this
        simp [this.1]

theorem firstDedupF_nodup {α : Type} [DecidableEq α] :
    ∀ (f : Nat) (l : List α), (firstDedupF f l).Nodup := by
  intro f
  induction f with
  | zero => intro l; simp [firstDedupF]
  | succ f ih =>
    intro l
    cases l with
    | nil => simp [firstDedupF]
    | cons a l' =>
      simp only [firstDedupF]
      refine List.nodup_cons.mpr ⟨?_, ih _⟩
      intro hmem
      have := mem_of_mem_firstDedupF _ _ _ hmem
      simp at this

theorem firstDedup_nodup {α : Type} [DecidableEq α] (l : List α) :
    (firstDedup l).Nodup := firstDedupF_nodup _ _

/-! ### C1: the list-page URL extractor -/

/-- The distinct eligible complaint URLs of a list page, in first-seen
order: the second components of the link matches that contain an
underscore, deduplicated. -/
def eligibleUrls (md slug : LC) : List LC :=
  firstDedup (((linkMatches md slug).map Prod.snd).filter (fun u => '_' ∈ u))

theorem collectUrls_take (limit : Nat) :
    ∀ (ms : List (LC × LC)) (acc : List LC), acc.length < limit →
      collectUrls limit ms acc =
        (acc ++ firstDedup ((ms.map Prod.snd).filter (fun u => '_' ∈ u ∧ u ∉ acc))).take limit := by
  intro ms
  induction ms with
  | nil =>
    intro acc hacc
    simp only [collectUrls, List.map_nil, List.filter_nil]
    show acc = (acc ++ firstDedup []).take limit
    simp [firstDedup, firstDedupF, List.take_of_length_le (Nat.le_of_lt hacc)]
  | cons tu ms' ih =>
    intro acc hacc
    obtain ⟨t, u⟩ := tu
    by_cases hel : '_' ∈ u ∧ u ∉ acc
    · have hfil : ((((t, u) :: ms').map Prod.snd).filter (fun v => '_' ∈ v ∧ v ∉ acc)) =
          u :: ((ms'.map Prod.snd).filter (fun v => '_' ∈ v ∧ v ∉ acc)) := by
        simp only [List.map_cons]
        rw [List.filter_cons_of_pos (by simpa using hel)]
      rw [hfil, firstDedup_cons]
      have hff : ((ms'.map Prod.snd).filter (fun v => '_' ∈ v ∧ v ∉ acc)).filter
            (fun b => b ≠ u) =
          (ms'.map Prod.snd).filter (fun v => '_' ∈ v ∧ v ∉ acc ++ [u]) := by
        rw [List.filter_filter]
        refine List.filter_congr ?_
        intro x _
        by_cases h1 : '_' ∈ x <;> by_cases h2 : x ∈ acc <;> by_cases h3 : x = u <;>
          simp [h1, h2, h3, List.mem_append]
      rw [hff]
      show (if '_' ∈ u ∧ u ∉ acc then
          if limit ≤ (acc ++ [u]).length then acc ++ [u]
          else collectUrls limit ms' (acc ++ [u])
        else collectUrls limit ms' acc) = _
      rw [if_pos hel]
      by_cases hlim : limit ≤ (acc ++ [u]).length
      · rw [if_pos hlim]
        have h1 : (acc ++ [u]).length = acc.length + 1 := by simp
        have hlen : (acc ++ [u]).length = limit := by omega
        rw [show acc ++ u :: firstDedup
            ((ms'.map Prod.snd).filter (fun v => '_' ∈ v ∧ v ∉ acc ++ [u])) =
          (acc ++ [u]) ++ firstDedup
            ((ms'.map Prod.snd).filter (fun v => '_' ∈ v ∧ v ∉ acc ++ [u])) by
            rw [List.append_assoc, List.singleton_append]]
        rw [List.take_left' hlen]
      · rw [if_neg hlim]
        have h1 : (acc ++ [u]).length = acc.length + 1 := by simp
        have hacc' : (acc ++ [u]).length < limit := by omega
        rw [ih _ hacc']
        rw [List.append_assoc, List.singleton_append]
    · have hfil : ((((t, u) :: ms').map Prod.snd).filter (fun v => '_' ∈ v ∧ v ∉ acc)) =
          ((ms'.map Prod.snd).filter (fun v => '_' ∈ v ∧ v ∉ acc)) := by
        simp only [List.map_cons]
        rw [List.filter_cons_of_neg (by simpa using hel)]
      rw [hfil]
      show (if '_' ∈ u ∧ u ∉ acc then
          if limit ≤ (acc ++ [u]).length then acc ++ [u]
          else collectUrls limit ms' (acc ++ [u])
        else collectUrls limit ms' acc) = _
      rw [if_neg hel]
      exact ih _ hacc

/-- C1 (amended to a positive cap): for every markdown, slug and cap
`K ≥ 1`, the extractor returns the first `K` of the distinct
underscore-bearing namespace-scoped link URLs in first-seen order, so its
length is `min N K` and it holds no duplicate. -/
theorem c1_extractor_take_min (md slug : LC) (K : Nat) (hK : 1 ≤ K) :
    get_complaint_urls_from_markdown md slug K = (eligibleUrls md slug).take K ∧
    (get_complaint_urls_from_markdown md slug K).length = min (eligibleUrls md slug).length K ∧
    (get_complaint_urls_from_markdown md slug K).Nodup := by
  have h0 : ([] : List LC).length < K := hK
  have hcoll := collectUrls_take K (linkMatches md slug) [] h0
  have hfil : ((linkMatches md slug).map Prod.snd).filter (fun u => '_' ∈ u ∧ u ∉ ([] : List LC)) =
      ((linkMatches md slug).map Prod.snd).filter (fun u => '_' ∈ u) := by
    refine List.filter_congr ?_
    intro x _
    simp
  have hmain : get_complaint_urls_from_markdown md slug K = (eligibleUrls md slug).take K := by
    show collectUrls K (linkMatches md slug) [] = _
    rw [hcoll, hfil, List.nil_append]
    rfl
  refine ⟨hmain, ?_, ?_⟩
  · rw [hmain, List.length_take, Nat.min_comm]
  · rw [hmain]
    exact (List.take_sublist _ _).nodup (firstDedup_nodup _)

/-- A one-link list page used to exercise the extractor on a zero cap. -/
def c1md : LC := "[a](https://www.reclameaqui.com.br/x/_)".data

/-- C1 counterexample: with cap `K = 0` the loop appends a first URL and
only then tests the cap, so the result has one URL where the claim
demands `min (N, 0) = 0`. -/
theorem c1_cap_zero_counterexample :
    ¬ ((get_complaint_urls_from_markdown c1md "x".data 0).length =
       min (eligibleUrls c1md "x".data).length 0) := by decide

/-- C1 witness: the amended statement applied at a concrete page and cap 1. -/
theorem c1_extractor_take_min_witness :
    1 ≤ 1 ∧
    (get_complaint_urls_from_markdown c1md "x".data 1 = (eligibleUrls c1md "x".data).take 1 ∧
     (get_complaint_urls_from_markdown c1md "x".data 1).length =
       min (eligibleUrls c1md "x".data).length 1 ∧
     (get_complaint_urls_from_markdown c1md "x".data 1).Nodup) :=
  ⟨by decide, c1_extractor_take_min c1md "x".data 1 (by decide)⟩

/-! ### C2: the title gate of scrape_complaint -/

/-- The markdown contains no markdown heading line: no line of the text
begins with the heading hash.  Every match of the multiline title pattern
starts at a hash sitting on a line start (even when its whitespace run
then crosses newlines), so such a markdown admits no title match. -/
def hasNoHeadingLine (md : LC) : Prop :=
  ∀ l ∈ splitLines md, l.head? ≠ some '#'

theorem splitLines_ne_nil : ∀ md : LC, splitLines md ≠ [] := by
  intro md
  cases md with
  | nil => simp [splitLines]
  | cons c rest =>
    simp only [splitLines]
    cases splitLines rest with
    | nil => simp
    | cons l ls => by_cases h : c = '\n' <;> simp [h]

theorem titleScan_eq_none_of_no_hash :
    ∀ (md : LC) (b : Bool),
      (∀ l ∈ (splitLines md).tail, l.head? ≠ some '#') →
      (b = true → ∀ l ∈ splitLines md, l.head? ≠ some '#') →
      titleScan b md = none := by
  intro md
  induction md with
  | nil => intro b _ _; cases b <;> rfl
  | cons c rest ih =>
    intro b h1 h2
    cases hsl : splitLines rest with
    | nil => exact absurd hsl (splitLines_ne_nil rest)
    | cons l ls =>
      have hattempt : ¬ (b = true ∧ c = '#') := by
        rintro ⟨hb, hc⟩
        subst hc
        have hfst : ('#' :: l) ∈ splitLines ('#' :: rest) := by
          have hne : ¬ ('#' : Char) = '\n' := by decide
          simp [splitLines, hsl, hne]
        exact h2 hb _ hfst (by simp)
      have hstep : titleScan b (c :: rest) = titleScan (c == '\n') rest := by
        simp only [titleScan, if_neg hattempt]
      rw [hstep]
      by_cases hc : c = '\n'
      · subst hc
        have hlines_rest : ∀ l' ∈ splitLines rest, l'.head? ≠ some '#' := by
          intro l' hl'
          apply h1
          rw [hsl] at hl'
          simp [splitLines, hsl, hl']
        exact ih (('\n' : Char) == '\n')
          (fun l' hl' => hlines_rest l' (List.mem_of_mem_tail hl'))
          (fun _ => hlines_rest)
      · have hb' : (c == '\n') = false := by simp [hc]
        rw [hb']
        refine ih false ?_ (fun h => absurd h (by decide))
        intro l' hl'
        apply h1
        rw [hsl] at hl'
        simp only [List.tail_cons] at hl'
        simp [splitLines, hsl, hc, hl']

/-- C2: detail markdown without any heading line yields no record, and
likewise whenever the title search fails; a returned record never
carries an empty or placeholder title; and the only aborts of the
extractor are empty markdown or a missing/placeholder title. -/
theorem c2_title_gate (md url : LC) :
    (hasNoHeadingLine md → scrape_complaint md url = none) ∧
    (extractTitleRaw md = none → scrape_complaint md url = none) ∧
    (∀ c, scrape_complaint md url = some c →
      c.title ≠ [] ∧ c.title ≠ "Sem título".data) ∧
    (scrape_complaint md url = none →
      md = [] ∨ extract_title md = [] ∨ extract_title md = "Sem título".data) := by
  have hgate : extractTitleRaw md = none → scrape_complaint md url = none := by
    intro hraw
    have htitle : extract_title md = "Sem título".data := by
      simp [extract_title, hraw]
    simp [scrape_complaint, htitle]
  refine ⟨?_, hgate, ?_, ?_⟩
  · intro h
    apply hgate
    exact titleScan_eq_none_of_no_hash md true
      (fun l hl => h l (List.mem_of_mem_tail hl)) (fun _ => h)
  · intro c hc
    simp only [scrape_complaint] at hc
    split at hc
    · exact absurd hc (by simp)
    · split at hc
      · exact absurd hc (by simp)
      · rename_i hbad
        cases hc
        push_neg at hbad
        exact ⟨hbad.1, hbad.2⟩
  · intro hc
    simp only [scrape_complaint] at hc
    split at hc
    · rename_i hmd
      exact Or.inl hmd
    · split at hc
      · rename_i hbad
        exact Or.inr hbad
      · exact absurd hc (by simp)

/-- C2 witness: a concrete heading-free markdown aborts extraction. -/
theorem c2_title_gate_witness :
    hasNoHeadingLine "no heading".data ∧ scrape_complaint "no heading".data "u".data = none :=
  ⟨by unfold hasNoHeadingLine; decide,
   (c2_title_gate "no heading".data "u".data).1 (by unfold hasNoHeadingLine; decide)⟩

/-! ### C3: complaint id extraction -/

theorem mem_dropWhile_of_mem (p : Char → Bool) :
    ∀ (l : LC) (a : Char), a ∈ l → p a = false → a ∈ l.dropWhile p := by
  intro l
  induction l with
  | nil => intro a h _; simp at h
  | cons c l' ih =>
    intro a hmem hpa
    rw [List.dropWhile_cons]
    by_cases hc : p c = true
    · rw [if_pos hc]
      rcases List.mem_cons.mp hmem with heq | h
      · subst heq; rw [hpa] at hc; simp at hc
      · exact ih a h hpa
    · rw [if_neg hc]
      exact hmem

theorem takeWhile_all_append (p : Char → Bool) :
    ∀ (l r : LC), (∀ c ∈ l, p c = true) → (l ++ r).takeWhile p = l ++ r.takeWhile p := by
  intro l
  induction l with
  | nil => intro r _; simp
  | cons c l' ih =>
    intro r h
    have hc : p c = true := h c (by simp)
    simp only [List.cons_append, List.takeWhile_cons, hc, if_true]
    rw [ih r (fun x hx => h x (by simp [hx]))]

theorem drop_takeWhile_length (p : Char → Bool) :
    ∀ (l : LC), l.drop (l.takeWhile p).length = l.dropWhile p := by
  intro l
  induction l with
  | nil => simp
  | cons c l' ih =>
    rw [List.takeWhile_cons, List.dropWhile_cons]
    by_cases hc : p c = true
    · simp only [hc, if_true, List.length_cons, List.drop_succ_cons]
      exact ih
    · simp [hc]

theorem urlIdMatchAt_at_sep (idseg suf : LC) (hne : idseg ≠ [])
    (hal : ∀ c ∈ idseg, c.isAlphanum = true) (hsuf : suf = [] ∨ suf = ['/']) :
    urlIdMatchAt ('_' :: (idseg ++ suf)) = some idseg := by
  have htw : (idseg ++ suf).takeWhile Char.isAlphanum = idseg := by
    rw [takeWhile_all_append Char.isAlphanum idseg suf hal]
    rcases hsuf with rfl | rfl <;> simp [List.takeWhile]
  have hlen : ¬ ((idseg ++ suf).takeWhile Char.isAlphanum).length = 0 := by
    rw [htw]
    simpa using hne
  have hdrop : (idseg ++ suf).drop ((idseg ++ suf).takeWhile Char.isAlphanum).length = suf := by
    rw [htw, List.drop_left]
  simp only [urlIdMatchAt, if_pos rfl, hlen, if_false, hdrop, htw]
  rcases hsuf with rfl | rfl <;> simp [hne]

theorem searchUrlId_decompose :
    ∀ (pre idseg suf : LC), idseg ≠ [] → (∀ c ∈ idseg, c.isAlphanum = true) →
      (suf = [] ∨ suf = ['/']) →
      searchUrlId (pre ++ '_' :: (idseg ++ suf)) = some idseg := by
  intro pre
  induction pre with
  | nil =>
    intro idseg suf h1 h2 h3
    simp only [List.nil_append, searchUrlId]
    rw [urlIdMatchAt_at_sep idseg suf h1 h2 h3]
  | cons c pre' ih =>
    intro idseg suf h1 h2 h3
    have hnone : urlIdMatchAt (c :: (pre' ++ '_' :: (idseg ++ suf))) = none := by
      by_cases hc : c = '_'
      · subst hc
        have hmem : '_' ∈ pre' ++ '_' :: (idseg ++ suf) := by simp
        have hnal : ('_' : Char).isAlphanum = false := by decide
        have hmem2 : '_' ∈ (pre' ++ '_' :: (idseg ++ suf)).dropWhile Char.isAlphanum :=
          mem_dropWhile_of_mem _ _ _ hmem hnal
        simp only [urlIdMatchAt, if_pos rfl, drop_takeWhile_length]
        by_cases hrun : ((pre' ++ '_' :: (idseg ++ suf)).takeWhile Char.isAlphanum).length = 0
        · simp [hrun]
        · rw [if_neg hrun]
          have hshape : ¬ ((pre' ++ '_' :: (idseg ++ suf)).dropWhile Char.isAlphanum = [] ∨
              (pre' ++ '_' :: (idseg ++ suf)).dropWhile Char.isAlphanum = ['\n'] ∨
              (pre' ++ '_' :: (idseg ++ suf)).dropWhile Char.isAlphanum = ['/'] ∨
              (pre' ++ '_' :: (idseg ++ suf)).dropWhile Char.isAlphanum = ['/', '\n']) := by
            intro h
            rcases h with h | h | h | h <;> rw [h] at hmem2 <;> simp at hmem2
          rw [if_neg hshape]
          simp
      · simp [urlIdMatchAt, hc]
    simp only [List.cons_append, searchUrlId, List.append_eq, hnone]
    exact ih idseg suf h1 h2 h3

/-- C3: when the markdown has no labelled ID match, a URL whose trailing
segment is an underscore followed by a nonempty alphanumeric id
(optionally ending in a slash) yields exactly that id; when the labelled
field matches, its digits are used instead. -/
theorem c3_id_extraction (md url pre idseg suf : LC) :
    (reSearch pId md = none → url = pre ++ '_' :: (idseg ++ suf) → idseg ≠ [] →
      (∀ c ∈ idseg, c.isAlphanum = true) → (suf = [] ∨ suf = ['/']) →
      extract_complaint_id md url = idseg) ∧
    (∀ caps, reSearch pId md = some caps → (getCap 1 caps).getD [] ≠ [] →
      extract_complaint_id md url = (getCap 1 caps).getD []) := by
  constructor
  · intro hno hurl h1 h2 h3
    subst hurl
    simp only [extract_complaint_id, hno]
    rw [searchUrlId_decompose pre idseg suf h1 h2 h3]
    simp
  · intro caps hsome hne
    simp only [extract_complaint_id, hsome]
    rw [if_neg hne]

/-- C3 witness: the fallback applied to a concrete markdown and URL. -/
theorem c3_id_extraction_witness :
    reSearch pId "x".data = none ∧
    extract_complaint_id "x".data "a_B2".data = "B2".data :=
  ⟨by decide, (c3_id_extraction "x".data "a_B2".data "a".data "B2".data []).1
    (by decide) (by decide) (by decide) (by decide) (by decide)⟩

/-! ### C4: status selection -/

/-- The stripped leftmost matches of the two status patterns, in order. -/
def statusCandidates (md : LC) : List LC :=
  statusPatterns.filterMap (fun p =>
    (reSearch p md).map (fun caps => stripChars ((getCap 1 caps).getD [])))

/-- C4: the extracted status is the first candidate of the two patterns
(tried in order) whose stripped match is nonempty and strictly shorter
than 50 characters; with no such candidate it is the unknown marker, in
particular when neither pattern matches at all. -/
theorem c4_status_selection (md : LC) :
    extract_status md =
      ((statusCandidates md).find? (fun s => s ≠ [] ∧ s.length < 50)).getD
        "Desconhecido".data ∧
    (reSearch pStatus1 md = none → reSearch pStatus2 md = none →
      extract_status md = "Desconhecido".data) := by
  constructor
  · simp only [extract_status, statusPatterns, statusCandidates]
    cases h1 : reSearch pStatus1 md with
    | none =>
      cases h2 : reSearch pStatus2 md with
      | none => simp [statusLoop, h1, h2]
      | some c2 =>
        by_cases hok : stripChars ((getCap 1 c2).getD []) ≠ [] ∧
            (stripChars ((getCap 1 c2).getD [])).length < 50
        · simp [statusLoop, h1, h2, hok]
        · simp [statusLoop, h1, h2, hok]
    | some c1 =>
      by_cases hok1 : stripChars ((getCap 1 c1).getD []) ≠ [] ∧
          (stripChars ((getCap 1 c1).getD [])).length < 50
      · simp [statusLoop, h1, hok1]
      · cases h2 : reSearch pStatus2 md with
        | none => simp [statusLoop, h1, h2, hok1]
        | some c2 =>
          by_cases hok2 : stripChars ((getCap 1 c2).getD []) ≠ [] ∧
              (stripChars ((getCap 1 c2).getD [])).length < 50
          · simp [statusLoop, h1, h2, hok1, hok2]
          · simp [statusLoop, h1, h2, hok1, hok2]
  · intro h1 h2
    simp [extract_status, statusPatterns, statusLoop, h1, h2]

/-- C4 witness: the default applied to a markdown matching neither
pattern. -/
theorem c4_status_selection_witness :
    reSearch pStatus1 "x".data = none ∧ reSearch pStatus2 "x".data = none ∧
    extract_status "x".data = "Desconhecido".data :=
  ⟨by decide, by decide, (c4_status_selection "x".data).2 (by decide) (by decide)⟩

/-! ### C5: pagination driver bounds -/

theorem gcuLoop_pages_le (fetch : LC → Except Unit LC) (slug : LC) (limit : Nat) (filt : LC) :
    ∀ (f page : Nat) (urls : List LC) (pages : List Nat),
      (gcuLoop fetch slug limit filt f page urls pages).2.length ≤ pages.length + f := by
  intro f
  induction f with
  | zero => intro page urls pages; simp [gcuLoop]
  | succ f ih =>
    intro page urls pages
    simp only [gcuLoop]
    by_cases hlt : urls.length < limit
    · rw [if_pos hlt]
      cases hf : fetch (listPageUrl slug filt page) with
      | error e => simp
      | ok md =>
        by_cases hempty : get_complaint_urls_from_markdown md slug (limit - urls.length) = []
        · simp [hempty]
        · by_cases hpage : 10 < page + 1
          · simp [hempty, hpage]
          · simp only [hempty, hpage, if_neg, if_false]
            calc (gcuLoop fetch slug limit filt f (page + 1)
                  (urls ++ get_complaint_urls_from_markdown md slug (limit - urls.length))
                  (pages ++ [page])).2.length
                ≤ (pages ++ [page]).length + f := ih _ _ _
              _ ≤ pages.length + (f + 1) := by
                simp only [List.length_append, List.length_cons, List.length_nil]
                omega
    · rw [if_neg hlt]
      simp

theorem gcuLoop_pages_range (fetch : LC → Except Unit LC) (slug : LC) (limit : Nat) (filt : LC) :
    ∀ (f page : Nat) (urls : List LC) (pages : List Nat),
      1 ≤ page → page + f ≤ 11 → (∀ p ∈ pages, 1 ≤ p ∧ p ≤ 10) →
      ∀ p ∈ (gcuLoop fetch slug limit filt f page urls pages).2, 1 ≤ p ∧ p ≤ 10 := by
  intro f
  induction f with
  | zero =>
    intro page urls pages _ _ hpages
    simpa [gcuLoop] using hpages
  | succ f ih =>
    intro page urls pages hpage1 hpagef hpages
    have hpage10 : page ≤ 10 := by omega
    have hpages' : ∀ p ∈ pages ++ [page], 1 ≤ p ∧ p ≤ 10 := by
      intro p hp
      rcases List.mem_append.mp hp with h | h
      · exact hpages p h
      · have : p = page := by simpa using h
        subst this
        exact ⟨hpage1, hpage10⟩
    simp only [gcuLoop]
    by_cases hlt : urls.length < limit
    · rw [if_pos hlt]
      cases hf : fetch (listPageUrl slug filt page) with
      | error e => exact hpages'
      | ok md =>
        by_cases hempty : get_complaint_urls_from_markdown md slug (limit - urls.length) = []
        · simpa [hempty] using hpages'
        · by_cases hpg : 10 < page + 1
          · simpa [hempty, hpg] using hpages'
          · simp only [hempty, hpg, if_neg, if_false]
            exact ih (page + 1) _ _ (by omega) (by omega) hpages'
    · rw [if_neg hlt]
      exact hpages

/-- C5: for every fetch oracle and request, pagination returns at most
`limit` URLs and fetches at most ten list pages, all with page numbers
between 1 and 10; the driver is a total function, so it terminates. -/
theorem c5_pagination_bounds (fetch : LC → Except Unit LC) (slug : LC) (limit : Nat)
    (filt : LC) :
    (get_complaint_urls fetch slug limit filt).length ≤ limit ∧
    (get_complaint_urls_paged fetch slug limit filt).2.length ≤ 10 ∧
    (∀ p ∈ (get_complaint_urls_paged fetch slug limit filt).2, 1 ≤ p ∧ p ≤ 10) := by
  refine ⟨?_, ?_, ?_⟩
  · simp only [get_complaint_urls, get_complaint_urls_paged]
    exact List.length_take_le _ _
  · have h := gcuLoop_pages_le fetch slug limit filt 10 1 [] []
    simpa [get_complaint_urls_paged] using h
  · intro p hp
    have h := gcuLoop_pages_range fetch slug limit filt 10 1 [] []
      (by omega) (by omega) (by simp)
    exact h p (by simpa [get_complaint_urls_paged] using hp)

/-- C5 witness: bounds applied to an oracle that always raises. -/
theorem c5_pagination_bounds_witness :
    1 ∈ (get_complaint_urls_paged (fun _ => Except.error ()) "x".data 5 []).2 ∧
    (1 ≤ 1 ∧ 1 ≤ 10) :=
  ⟨by decide,
   (c5_pagination_bounds (fun _ => Except.error ()) "x".data 5 []).2.2 1 (by decide)⟩

/-! ### C6: the page-count probe -/

/-- C6: the probe result is at most 50; a raised fetch or an unmatched
marker falls back to 1; a matched marker yields the second number capped
at 50; and the probe outcome never changes the complaint list that
`get_complaints` assembles. -/
theorem c6_total_pages (o : Except Unit LC) :
    get_total_pages o ≤ 50 ∧
    get_total_pages (Except.error ()) = 1 ∧
    (∀ md, reSearch pPages md = none → get_total_pages (Except.ok md) = 1) ∧
    (∀ md caps, reSearch pPages md = some caps →
      get_total_pages (Except.ok md) = min (digitsToNat ((getCap 2 caps).getD [])) 50) ∧
    (∀ (lf df : LC → Except Unit LC) (t1 t2 : Except Unit LC) (slug : LC) (limit : Nat)
      (filt : LC),
      (get_complaints lf df t1 slug limit filt).complaints =
        (get_complaints lf df t2 slug limit filt).complaints) := by
  refine ⟨?_, rfl, ?_, ?_, ?_⟩
  · cases o with
    | error e => simp only [get_total_pages]; omega
    | ok md =>
      cases h : reSearch pPages md with
      | none => simp only [get_total_pages, h]; omega
      | some caps =>
        simp only [get_total_pages, h]
        exact Nat.min_le_right _ _
  · intro md h
    simp [get_total_pages, h]
  · intro md caps h
    simp [get_total_pages, h]
  · intro lf df t1 t2 slug limit filt
    rfl

/-- C6 witness: the fallback applied to a markdown with no marker. -/
theorem c6_total_pages_witness :
    get_total_pages (Except.ok "zz".data) = 1 ∧ get_total_pages (Except.error ()) = 1 :=
  ⟨(c6_total_pages (Except.error ())).2.2.1 "zz".data (by decide),
   (c6_total_pages (Except.error ())).2.1⟩

/-! ### C7: company search deduplication -/

/-- Association-list lookup (key equality on the left component). -/
def alookup (s : LC) : List (LC × LC) → Option LC
  | [] => none
  | (k, v) :: d => if k = s then some v else alookup s d

/-- The longest-name policy of one dict write: a strictly longer new name
wins, otherwise the stored name stays. -/
def pickLonger (w v : LC) : LC := if w.length < v.length then v else w

/-- Fold of the longest-name policy over a list of names. -/
def bestFrom : Option LC → List LC → Option LC
  | b, [] => b
  | some w, v :: vs => bestFrom (some (pickLonger w v)) vs
  | none, v :: vs => bestFrom (some v) vs

/-- The names a slug receives over a list of valid occurrences. -/
def labelsOf (s : LC) (occs : List (LC × LC)) : List LC :=
  (occs.filter (fun p => p.1 = s)).map Prod.snd

/-- The valid `(slug, cleaned name)` occurrences of the match list, in
page order (the two rejection tests of `search_company`). -/
def validOccs : List (LC × LC × LC) → List (LC × LC)
  | [] => []
  | (name, _, slug) :: ms =>
    if ("lista-reclamacoes".data <:+: slug) ∨ slug.length ≤ 1 ∨ ("ra-".data <+: slug) then
      validOccs ms
    else
      let clean := stripChars name
      if clean = [] ∨ clean.length ≤ 2 ∨ ("**".data <:+: clean) ∨ '\\' ∈ clean ∨ '%' ∈ clean then
        validOccs ms
      else (slug, clean) :: validOccs ms

def dictFoldl (d : List (LC × LC)) (occs : List (LC × LC)) : List (LC × LC) :=
  occs.foldl (fun acc p => dictUpdate acc p.1 p.2) d

theorem searchFold_eq_dictFoldl :
    ∀ (ms : List (LC × LC × LC)) (d : List (LC × LC)),
      searchFold ms d = dictFoldl d (validOccs ms) := by
  intro ms
  induction ms with
  | nil => intro d; rfl
  | cons t ms' ih =>
    intro d
    obtain ⟨name, u, slug⟩ := t
    simp only [searchFold, validOccs]
    by_cases h1 : ("lista-reclamacoes".data <:+: slug) ∨ slug.length ≤ 1 ∨
        ("ra-".data <+: slug)
    · rw [if_pos h1, if_pos h1]
      exact ih d
    · rw [if_neg h1, if_neg h1]
      by_cases h2 : stripChars name = [] ∨ (stripChars name).length ≤ 2 ∨
          ("**".data <:+: stripChars name) ∨ '\\' ∈ stripChars name ∨ '%' ∈ stripChars name
      · rw [if_pos h2, if_pos h2]
        exact ih d
      · rw [if_neg h2, if_neg h2]
        simp only [dictFoldl, List.foldl_cons]
        exact ih (dictUpdate d slug (stripChars name))

theorem dictUpdate_keys_mem :
    ∀ (d : List (LC × LC)) (s v : LC), s ∈ d.map Prod.fst →
      (dictUpdate d s v).map Prod.fst = d.map Prod.fst := by
  intro d
  induction d with
  | nil => intro s v h; simp at h
  | cons kv d' ih =>
    intro s v h
    obtain ⟨k, w⟩ := kv
    simp only [dictUpdate]
    by_cases hk : k = s
    · rw [if_pos hk]
      simp
    · rw [if_neg hk]
      have hmem : s ∈ d'.map Prod.fst := by
        rw [List.map_cons] at h
        rcases List.mem_cons.mp h with h' | h'
        · exact absurd h'.symm hk
        · exact h'
      simp only [List.map_cons]
      rw [ih s v hmem]

theorem dictUpdate_keys_new :
    ∀ (d : List (LC × LC)) (s v : LC), s ∉ d.map Prod.fst →
      (dictUpdate d s v).map Prod.fst = d.map Prod.fst ++ [s] := by
  intro d
  induction d with
  | nil => intro s v _; simp [dictUpdate]
  | cons kv d' ih =>
    intro s v h
    obtain ⟨k, w⟩ := kv
    simp only [dictUpdate]
    by_cases hk : k = s
    · exact absurd (by simp [hk]) h
    · rw [if_neg hk]
      have hmem : s ∉ d'.map Prod.fst := by
        intro hc
        exact h (by simp [hc])
      simp only [List.map_cons]
      rw [ih s v hmem]
      simp

theorem dictUpdate_lookup :
    ∀ (d : List (LC × LC)) (s v k : LC),
      alookup k (dictUpdate d s v) =
        if k = s then
          some (match alookup s d with
            | some w => pickLonger w v
            | none => v)
        else alookup k d := by
  intro d
  induction d with
  | nil =>
    intro s v k
    by_cases hk : k = s
    · simp [dictUpdate, alookup, hk]
    · have : ¬ s = k := fun h => hk h.symm
      simp [dictUpdate, alookup, hk, this]
  | cons kv d' ih =>
    intro s v k
    obtain ⟨k', w⟩ := kv
    simp only [dictUpdate]
    by_cases hks : k' = s
    · rw [if_pos hks]
      by_cases hkk : k = s
      · have h1 : k' = k := by rw [hks, hkk]
        simp [alookup, hks, hkk, h1, pickLonger]
      · have h1 : ¬ k' = k := fun h => hkk (by rw [← h, hks])
        have h4 : ¬ s = k := fun hh => hkk hh.symm
        simp [alookup, hks, hkk, h1, h4]
    · rw [if_neg hks]
      by_cases hkk : k' = k
      · have h2 : ¬ k = s := fun h => hks (by rw [hkk, h])
        simp [alookup, hkk, h2]
      · simp only [alookup, if_neg hkk]
        rw [ih s v k]
        by_cases hk : k = s
        · have h3 : ¬ k' = s := hks
          simp [alookup, hk, h3]
        · simp [hk]

theorem dictFoldl_keys :
    ∀ (occs : List (LC × LC)) (d : List (LC × LC)),
      (dictFoldl d occs).map Prod.fst =
        d.map Prod.fst ++ firstDedup ((occs.map Prod.fst).filter
          (fun s => s ∉ d.map Prod.fst)) := by
  intro occs
  induction occs with
  | nil => intro d; simp [dictFoldl, firstDedup, firstDedupF]
  | cons p occs' ih =>
    intro d
    obtain ⟨s, v⟩ := p
    simp only [dictFoldl, List.foldl_cons]
    have hstep := ih (dictUpdate d s v)
    simp only [dictFoldl] at hstep
    rw [hstep]
    by_cases hmem : s ∈ d.map Prod.fst
    · rw [dictUpdate_keys_mem d s v hmem]
      rw [List.map_cons, List.filter_cons_of_neg (by simpa using hmem)]
    · rw [dictUpdate_keys_new d s v hmem]
      rw [List.map_cons, List.filter_cons_of_pos (by simpa using hmem), firstDedup_cons]
      rw [List.append_assoc, List.singleton_append]
      have hfil : ((occs'.map Prod.fst).filter (fun x => x ∉ d.map Prod.fst)).filter
            (fun b => b ≠ s) =
          (occs'.map Prod.fst).filter (fun x => x ∉ (d.map Prod.fst ++ [s])) := by
        rw [List.filter_filter]
        refine List.filter_congr ?_
        intro x _
        by_cases h1 : x ∈ d.map Prod.fst <;> by_cases h2 : x = s <;>
          simp [h1, h2, List.mem_append]
      rw [← hfil]

theorem dictFoldl_lookup :
    ∀ (occs : List (LC × LC)) (d : List (LC × LC)) (k : LC),
      alookup k (dictFoldl d occs) = bestFrom (alookup k d) (labelsOf k occs) := by
  intro occs
  induction occs with
  | nil => intro d k; simp [dictFoldl, labelsOf, bestFrom]
  | cons p occs' ih =>
    intro d k
    obtain ⟨s, v⟩ := p
    simp only [dictFoldl, List.foldl_cons]
    have hstep := ih (dictUpdate d s v) k
    simp only [dictFoldl] at hstep
    rw [hstep, dictUpdate_lookup d s v k]
    simp only [labelsOf, List.filter_cons]
    by_cases hk : k = s
    · subst hk
      simp only [if_pos rfl, decide_True, List.map_cons]
      cases hd : alookup k d with
      | none => simp [bestFrom]
      | some w => simp [bestFrom]
    · have h1 : ¬ s = k := fun h => hk h.symm
      simp [hk, h1, labelsOf]

/-- The order the claim literally describes: slugs ordered by the first
occurrence whose label equals the slug's eventual longest label. -/
def eventualUpdateOrder (occs : List (LC × LC)) : List LC :=
  firstDedup ((occs.filter (fun p => bestFrom none (labelsOf p.1 occs) = some p.2)).map
    Prod.fst)

/-- C7 (amended to dictionary insertion order): company search returns
each valid slug exactly once, keyed in the order of its first valid
occurrence, carrying the longest valid label seen (the earliest among
equally long ones), truncated to the first 10. -/
theorem c7_search_dedup (md : LC) :
    search_company_from_markdown md =
      ((searchFold (searchMatches md) []).map (fun p => CompanyInfo.mk p.2 p.1 none)).take 10 ∧
    (search_company_from_markdown md).length ≤ 10 ∧
    (searchFold (searchMatches md) []).map Prod.fst =
      firstDedup ((validOccs (searchMatches md)).map Prod.fst) ∧
    ((searchFold (searchMatches md) []).map Prod.fst).Nodup ∧
    (∀ s, alookup s (searchFold (searchMatches md) []) =
      bestFrom none (labelsOf s (validOccs (searchMatches md)))) := by
  have hkeys : (searchFold (searchMatches md) []).map Prod.fst =
      firstDedup ((validOccs (searchMatches md)).map Prod.fst) := by
    rw [searchFold_eq_dictFoldl, dictFoldl_keys]
    have hfil : ((validOccs (searchMatches md)).map Prod.fst).filter
        (fun s => s ∉ ([] : List (LC × LC)).map Prod.fst) =
        (validOccs (searchMatches md)).map Prod.fst := by
      refine List.filter_eq_self.mpr ?_
      intro a _
      simp
    rw [hfil]
    simp
  have hfirst : search_company_from_markdown md =
      ((searchFold (searchMatches md) []).map (fun p => CompanyInfo.mk p.2 p.1 none)).take 10 := by
    by_cases hmd : md = []
    · subst hmd
      decide
    · simp [search_company_from_markdown, hmd]
  refine ⟨hfirst, ?_, hkeys, ?_, ?_⟩
  · rw [hfirst]
    exact List.length_take_le _ _
  · rw [hkeys]
    exact firstDedup_nodup _
  · intro s
    rw [searchFold_eq_dictFoldl, dictFoldl_lookup]
    rfl

/-- A search page with two label variants for one slug, the longer one
after another company. -/
def c7md : LC := ("[Aaa](https://www.reclameaqui.com.br/empresa/aa/)" ++
  "[Bbbb](https://www.reclameaqui.com.br/empresa/bb/)" ++
  "[Aaaaaa](https://www.reclameaqui.com.br/empresa/aa/)").data

set_option maxRecDepth 16384 in
/-- C7 counterexample: the output order is not the order of first
encounter of the eventual longest-label update; the slug whose longest
label arrives last keeps its original (first-insertion) position. -/
theorem c7_order_counterexample :
    (searchFold (searchMatches c7md) []).map Prod.fst ≠
      eventualUpdateOrder (validOccs (searchMatches c7md)) := by decide

/-! ### C8: empty extraction results surface as 404 -/

/-- C8: past the key check, an empty extracted complaint list (or company
list) makes the endpoint answer 404, and a 200-style `ok` answer never
carries an empty list. -/
theorem c8_empty_extraction_404 (serverKey headerValue : Option LC)
    (lf df : LC → Except Unit LC) (tf : Except Unit LC) (slug : LC) (limit : Nat)
    (status : Option LC) (fr : Except Unit LC) (k : LC)
    (hkey : verify_api_key serverKey (headerToParam headerValue) = ApiResult.ok k) :
    ((get_complaints lf df tf slug limit (statusFilterOf status)).complaints = [] →
      get_company_complaints serverKey headerValue lf df tf slug limit status =
        ApiResult.httpError 404) ∧
    (∀ r, get_company_complaints serverKey headerValue lf df tf slug limit status =
        ApiResult.ok r → r.complaints ≠ []) ∧
    (search_company fr = [] →
      search_companies serverKey headerValue fr = ApiResult.httpError 404) ∧
    (∀ cs, search_companies serverKey headerValue fr = ApiResult.ok cs → cs ≠ []) := by
  refine ⟨?_, ?_, ?_, ?_⟩
  · intro hempty
    simp [get_company_complaints, hkey, hempty]
  · intro r hr
    simp only [get_company_complaints, hkey] at hr
    by_cases hempty :
        (get_complaints lf df tf slug limit (statusFilterOf status)).complaints = []
    · rw [if_pos hempty] at hr
      exact absurd hr (by simp)
    · rw [if_neg hempty] at hr
      cases hr
      exact hempty
  · intro hempty
    simp [search_companies, hkey, hempty]
  · intro cs hcs
    simp only [search_companies, hkey] at hcs
    by_cases hempty : search_company fr = []
    · rw [if_pos hempty] at hcs
      exact absurd hcs (by simp)
    · rw [if_neg hempty] at hcs
      cases hcs
      exact hempty

/-- C8 witness: with everything failing upstream, extraction is empty and
the complaints endpoint answers 404. -/
theorem c8_empty_extraction_404_witness :
    verify_api_key none (headerToParam none) = ApiResult.ok "dev-mode".data ∧
    (get_complaints (fun _ => Except.error ()) (fun _ => Except.error ()) (Except.error ())
      "x".data 5 (statusFilterOf none)).complaints = [] ∧
    get_company_complaints none none (fun _ => Except.error ()) (fun _ => Except.error ())
      (Except.error ()) "x".data 5 none = ApiResult.httpError 404 :=
  ⟨by decide, by decide,
   ((c8_empty_extraction_404 none none (fun _ => Except.error ()) (fun _ => Except.error ())
      (Except.error ()) "x".data 5 none (Except.error ()) "dev-mode".data (by decide)).1
     (by decide))⟩

/-! ### C9: the API key gate -/

/-- C9: with no configured server key every request passes; with a
configured nonempty key, a missing header is a 401, a nonempty
mismatching key a 403, and the matching key proceeds to the untouched
handler. -/
theorem c9_api_key_gate (k h : LC) (hk : k ≠ []) :
    (∀ hv : Option LC, verify_api_key none hv = ApiResult.ok "dev-mode".data) ∧
    (verify_api_key (some k) none = ApiResult.httpError 401) ∧
    (h ≠ [] → h ≠ k → verify_api_key (some k) (some h) = ApiResult.httpError 403) ∧
    (verify_api_key (some k) (some k) = ApiResult.ok k) ∧
    (∀ (lf df : LC → Except Unit LC) (tf : Except Unit LC) (slug : LC) (limit : Nat)
      (status : Option LC),
      get_company_complaints (some k) (some k) lf df tf slug limit status =
        get_company_complaints none none lf df tf slug limit status) := by
  refine ⟨fun hv => rfl, ?_, ?_, ?_, ?_⟩
  · simp [verify_api_key, hk]
  · intro h1 h2
    simp [verify_api_key, hk, h1, h2]
  · simp [verify_api_key, hk]
  · intro lf df tf slug limit status
    simp [get_company_complaints, verify_api_key, headerToParam, hk]

/-- C9 witness: a concrete mismatching key is refused with 403. -/
theorem c9_api_key_gate_witness :
    verify_api_key (some "k".data) (some "h".data) = ApiResult.httpError 403 :=
  (c9_api_key_gate "k".data "h".data (by decide)).2.2.1 (by decide) (by decide)

/-! ### C10: tags, chat and final consideration are never populated -/

/-- C10: every record the detail extractor returns has an empty tag list,
an empty chat list and no final consideration, and so does every
complaint of an assembled response: the HTML-based extractors are not
invoked on this path. -/
theorem c10_fields_empty :
    (∀ md url c, scrape_complaint md url = some c →
      c.tags = [] ∧ c.chat = [] ∧ c.final_consideration = none) ∧
    (∀ (lf df : LC → Except Unit LC) (tf : Except Unit LC) (slug : LC) (limit : Nat)
      (filt : LC) (c : Complaint),
      c ∈ (get_complaints lf df tf slug limit filt).complaints →
      c.tags = [] ∧ c.chat = [] ∧ c.final_consideration = none) := by
  have h1 : ∀ md url c, scrape_complaint md url = some c →
      c.tags = [] ∧ c.chat = [] ∧ c.final_consideration = none := by
    intro md url c hc
    simp only [scrape_complaint] at hc
    split at hc
    · exact absurd hc (by simp)
    · split at hc
      · exact absurd hc (by simp)
      · cases hc
        exact ⟨rfl, rfl, rfl⟩
  refine ⟨h1, ?_⟩
  intro lf df tf slug limit filt c hc
  simp only [get_complaints] at hc
  rcases List.mem_filterMap.mp hc with ⟨u, _, hu⟩
  simp only [scrape_complaint_via] at hu
  cases hdf : df u with
  | error e => rw [hdf] at hu; exact absurd hu (by simp)
  | ok md => rw [hdf] at hu; exact h1 md u c hu

/-- The record extracted from a minimal detail page. -/
def c10rec : Complaint :=
  { id := [], title := "T".data, description := [], status := "Desconhecido".data,
    date := [], location := none, tags := [], chat := [], final_consideration := none,
    url := "u".data }

/-- C10 witness: a concrete successful extraction carries the three empty
fields. -/
theorem c10_fields_empty_witness :
    scrape_complaint "# T".data "u".data = some c10rec ∧
    (c10rec.tags = [] ∧ c10rec.chat = [] ∧ c10rec.final_consideration = none) :=
  ⟨by decide, c10_fields_empty.1 "# T".data "u".data c10rec (by decide)⟩
